import Mathlib

/-!
# bipper-go: key derivation, sealing and storage addressing

A shallow embedding of `src/main.go`.  Go byte slices and Go strings are lists
of bytes; the blob directory is a map from path to file content; the
`blobs` table is a list of rows with `passphrase_hash` as primary key.

The third-party packages the program calls (scrypt, AES-GCM, BIP39) are not
part of the repository.  They enter as a parameter `Lib`; only their documented
calling conventions are modelled (parameter checks, result lengths, nil results
on error, run-time panics on misuse).

A Go function that panics is modelled by the result `none`; the error list of
the gin context (`c.AbortWithError`) is threaded explicitly.
-/

set_option autoImplicit false

namespace Bipper

/-! ## Bytes, Go slices -/

abbrev Byte := Fin 256

abbrev Bytes := List Byte

/-- Go slice expression `s[lo:hi]` on a slice whose capacity equals its length;
`none` is the run-time panic "slice bounds out of range". -/
def goSlice (s : Bytes) (lo hi : Nat) : Option Bytes :=
  if lo ≤ hi ∧ hi ≤ s.length then some ((s.drop lo).take (hi - lo)) else none

/-- Result of `io.ReadFull(r, buf)` on a zeroed buffer of `n` bytes when the
reader delivers `delivered` before it stops: the buffer keeps its length. -/
def readFull (delivered : Bytes) (n : Nat) : Bytes :=
  delivered.take n ++ List.replicate (n - delivered.length) 0

/-! ## Third-party packages -/

/-- The library functions the program calls. -/
structure Lib where
  /-- Core of `scrypt.Key` once its parameters are accepted: `keyLen` bytes. -/
  scrypt : Bytes → Bytes → Nat → Nat → Nat → (keyLen : Nat) → { d : Bytes // d.length = keyLen }
  /-- The call `aesgcm.Seal(nil, nonce, plaintext, nil)` under `key`. -/
  gcmSeal : (key nonce plaintext : Bytes) → Bytes
  /-- The call `aesgcm.Open(nil, nonce, ciphertext, nil)` under `key`; `none` is the
  authentication error. -/
  gcmOpen : (key nonce ciphertext : Bytes) → Option Bytes
  /-- The call `bip39.NewMnemonic(entropy)`; `none` is its error. -/
  newMnemonic : Bytes → Option Bytes

/-- Largest `int` of a 64-bit Go target. -/
def maxInt : Nat := 2 ^ 63 - 1

/-- Parameter check at the head of `scrypt.Key`, for positive `r` and `p`. -/
def scryptParamsOk (N r p : Nat) : Bool :=
  !(decide (N ≤ 1) || decide (N &&& (N - 1) ≠ 0)) &&
  !(decide (r * p ≥ 2 ^ 30) || decide (r > maxInt / 128 / p) || decide (r > maxInt / 256)
      || decide (N > maxInt / 128 / r))

/-- Model of `scrypt.Key(password, salt, N, r, p, keyLen)`; `none` is `(nil, err)`. -/
def scryptKey (L : Lib) (password salt : Bytes) (N r p keyLen : Nat) : Option Bytes :=
  if scryptParamsOk N r p then some (L.scrypt password salt N r p keyLen).val else none

/-- Key sizes accepted by `aes.NewCipher`. -/
def aesKeyOk (key : Bytes) : Bool :=
  key.length == 16 || key.length == 24 || key.length == 32

/-- Value of `aesgcm.NonceSize()` for `cipher.NewGCM`. -/
def gcmNonceSize : Nat := 12

/-! ## `src/main.go` -/

/-- `salt` of `mnemonicToKeys`. -/
def salt : Bytes := [0xd6, 0xef, 0x7d, 0x0c, 0xc9, 0x97, 0x4b, 0xe1]

/-- `mnemonicToKeys`: the scrypt error is dropped, so on error `derivedMaterial`
is nil and the first slice expression panics (`none`). -/
def mnemonicToKeys (L : Lib) (mnemonic : Bytes) : Option (Bytes × Bytes × Bytes) :=
  let derivedMaterial := (scryptKey L mnemonic salt (1 <<< 15) 8 1 96).getD []
  match goSlice derivedMaterial 0 32 with
  | none => none
  | some passphraseHash =>
    match goSlice derivedMaterial 32 64 with
    | none => none
    | some contentKey =>
      match goSlice derivedMaterial 64 derivedMaterial.length with
      | none => none
      | some filenameKey => some (passphraseHash, contentKey, filenameKey)

/-- `encrypt`: `rnd` is what `rand.Reader` delivers to `io.ReadFull`.  With a key
`aes.NewCipher` rejects, `block` is nil and `cipher.NewGCM` panics (`none`). -/
def encrypt (L : Lib) (rnd : Bytes) (plaintext key : Bytes) : Option (Bytes × Bytes) :=
  if aesKeyOk key then
    let nonce := readFull rnd gcmNonceSize
    let ciphertext := L.gcmSeal key nonce plaintext
    some (ciphertext, nonce)
  else none

/-- `decrypt`: the error of `Open` is dropped and the nil plaintext returned.
`none` is a panic: nil `block`, or `Open` called with a nonce of the wrong length. -/
def decrypt (L : Lib) (ciphertext key nonce : Bytes) : Option Bytes :=
  if aesKeyOk key then
    if nonce.length = gcmNonceSize then
      some ((L.gcmOpen key nonce ciphertext).getD [])
    else none
  else none

/-- Row of table `blobs`. -/
structure StoreMetadata where
  PassphraseHash : Bytes
  Filename : Bytes
  ContentNonce : Bytes
  FilenameNonce : Bytes
deriving DecidableEq, Repr

/-- Digits used by the verb `%x`. -/
def ldigits : List Char :=
  ['0', '1', '2', '3', '4', '5', '6', '7', '8', '9', 'a', 'b', 'c', 'd', 'e', 'f']

/-- Formatting of a byte slice by `%x`: for each byte `c`, `digits[c>>4]` then `digits[c&0xF]`. -/
def fmtSbx (b : Bytes) : List Char :=
  b.flatMap fun c => [ldigits.getD (c.val >>> 4) '0', ldigits.getD (c.val &&& 0xF) '0']

/-- Path `fmt.Sprintf("store/%x", e)` shared by `storeFile` and `retrieveFile`. -/
def blobPath (e : Bytes) : String :=
  "store/" ++ String.mk (fmtSbx e)

/-! ## Storage and request context -/

/-- The two stores: committed rows of table `blobs` (primary key `passphrase_hash`)
and the files below `store/`. -/
structure Store where
  rows : List StoreMetadata
  files : String → Option Bytes

/-- Errors the program hands to `c.AbortWithError`. -/
inductive Err
  | fileOpen | readAll | entropy | mnemonic | beginTx | insert | writeFile | commit
  | noRows | readFile
deriving DecidableEq, Repr

/-- The part of `*gin.Context` the two functions touch: status code and error of every
`AbortWithError` call, in order. -/
abbrev Ctx := List (Nat × Err)

/-- `c.AbortWithError(code, err)`: records the error; the calling function goes on. -/
def abortWithError (c : Ctx) (code : Nat) (err : Err) : Ctx := c ++ [(code, err)]

/-- Calls made by `storeFile` and `retrieveFile`, recorded in program order. -/
inductive Call
  | derive (mnemonic : Bytes)
  | encrypt (plaintext key : Bytes)
  | insert (row : StoreMetadata)
  | writeFile (path : String) (data : Bytes)
  | commit
  | get (passphraseHash : Bytes)
  | readFile (path : String)
  | decrypt (ciphertext key nonce : Bytes)
deriving DecidableEq, Repr

/-- What a call leaves behind: the stores, the context errors, the calls made and the
returned value (`none` when the function panicked). -/
structure Outcome (α : Type) where
  db : Store
  errors : Ctx
  calls : List Call
  ret : Option α

/-- The `*multipart.FileHeader` argument: its name, whether `Open` reports an error, and
what `io.ReadAll(file)` then yields (`none`: panic on a nil reader; otherwise the bytes
read and whether an error came with them). -/
structure FileHeader where
  Filename : Bytes
  openErr : Bool
  readAll : Option (Bytes × Bool)

/-- How `os.WriteFile` ends: done, failed before the file was created or truncated, or
failed after `written` bytes. -/
inductive WriteOutcome
  | ok
  | openFails
  | writeFails (written : Nat)
deriving DecidableEq, Repr

/-- Behaviour of the surroundings during one `storeFile` call. -/
structure World where
  /-- Bytes returned by `bip39.NewEntropy(256)`. -/
  entropy : Bytes
  /-- Whether `bip39.NewEntropy(256)` returned an error. -/
  entropyErr : Bool
  /-- Bytes `rand.Reader` delivers for the content nonce. -/
  contentRand : Bytes
  /-- Bytes `rand.Reader` delivers for the filename nonce. -/
  filenameRand : Bytes
  /-- Whether `db.Beginx()` fails. -/
  beginErr : Bool
  /-- Whether the INSERT fails for a reason other than the primary key. -/
  insertErr : Bool
  write : WriteOutcome
  /-- Whether `tx.Commit()` fails (the driver then rolls back). -/
  commitErr : Bool

/-- Point lookup `SELECT * FROM blobs WHERE passphrase_hash = ?`. -/
def dbGet (rows : List StoreMetadata) (passphraseHash : Bytes) : Option StoreMetadata :=
  rows.find? fun r => r.PassphraseHash = passphraseHash

/-- The INSERT inside the transaction: rejected when the primary key exists (`schema`)
or when the engine fails; otherwise the row is pending. -/
def txInsert (rows : List StoreMetadata) (insertErr : Bool) (row : StoreMetadata) :
    Option StoreMetadata :=
  if insertErr || (dbGet rows row.PassphraseHash).isSome then none else some row

/-- `tx.Commit()`: pending rows become visible unless the commit fails. -/
def txCommit (rows : List StoreMetadata) (pending : Option StoreMetadata) (commitErr : Bool) :
    List StoreMetadata :=
  if commitErr then rows else rows ++ pending.toList

/-- `os.WriteFile(path, data, 0644)`: the files afterwards and whether it failed. -/
def osWriteFile (files : String → Option Bytes) (path : String) (data : Bytes) :
    WriteOutcome → (String → Option Bytes) × Bool
  | .ok => (Function.update files path (some data), false)
  | .openFails => (files, true)
  | .writeFails written => (Function.update files path (some (data.take written)), true)

/-! ## `storeFile` and `retrieveFile` -/

/-- `storeFile`.  No `AbortWithError` is followed by a `return`. -/
def storeFile (L : Lib) (w : World) (fileHeader : FileHeader) (db : Store) : Outcome Bytes :=
  -- file, err := fileHeader.Open()
  let c : Ctx := if fileHeader.openErr then abortWithError [] 400 .fileOpen else []
  let filename := fileHeader.Filename
  -- content, err := io.ReadAll(file)
  match fileHeader.readAll with
  | none => ⟨db, c, [], none⟩
  | some (content, readErr) =>
  let c := if readErr then abortWithError c 500 .readAll else c
  -- entropy, err := bip39.NewEntropy(256)
  let entropy := w.entropy
  let c := if w.entropyErr then abortWithError c 500 .entropy else c
  -- mnemonic, err := bip39.NewMnemonic(entropy)
  let mnemonic := (L.newMnemonic entropy).getD []
  let c := if (L.newMnemonic entropy).isNone then abortWithError c 500 .mnemonic else c
  let t := [Call.derive mnemonic]
  match mnemonicToKeys L mnemonic with
  | none => ⟨db, c, t, none⟩
  | some (passphraseHash, contentKey, filenameKey) =>
  let t := t ++ [Call.encrypt content contentKey]
  match encrypt L w.contentRand content contentKey with
  | none => ⟨db, c, t, none⟩
  | some (contentBlob, contentNonce) =>
  let t := t ++ [Call.encrypt filename filenameKey]
  match encrypt L w.filenameRand filename filenameKey with
  | none => ⟨db, c, t, none⟩
  | some (filenameCipher, filenameNonce) =>
  let metadata : StoreMetadata := ⟨passphraseHash, filenameCipher, contentNonce, filenameNonce⟩
  -- tx, err := db.Beginx(); a nil tx makes tx.NamedExec panic
  let c := if w.beginErr then abortWithError c 500 .beginTx else c
  if w.beginErr then ⟨db, c, t, none⟩ else
  -- tx.NamedExec(INSERT ...)
  let t := t ++ [Call.insert metadata]
  let pending := txInsert db.rows w.insertErr metadata
  let c := if pending.isNone then abortWithError c 500 .insert else c
  -- os.WriteFile(fmt.Sprintf("store/%x", filenameCipher), contentBlob, 0644)
  let t := t ++ [Call.writeFile (blobPath filenameCipher) contentBlob]
  let wr := osWriteFile db.files (blobPath filenameCipher) contentBlob w.write
  let c := if wr.2 then abortWithError c 500 .writeFile else c
  -- tx.Commit()
  let t := t ++ [Call.commit]
  let rows := txCommit db.rows pending w.commitErr
  let c := if w.commitErr then abortWithError c 500 .commit else c
  ⟨⟨rows, wr.1⟩, c, t, some mnemonic⟩

/-- `retrieveFile`.  `metadata` starts as the zero value and stays so when `db.Get`
finds no row; a failed `os.ReadFile` leaves `ciphertext` nil. -/
def retrieveFile (L : Lib) (mnemonic : Bytes) (db : Store) : Outcome (Bytes × Bytes) :=
  let t := [Call.derive mnemonic]
  match mnemonicToKeys L mnemonic with
  | none => ⟨db, [], t, none⟩
  | some (passphraseHash, contentKey, filenameKey) =>
  -- db.Get(&metadata, SELECT ...)
  let t := t ++ [Call.get passphraseHash]
  let found := dbGet db.rows passphraseHash
  let metadata : StoreMetadata := found.getD ⟨[], [], [], []⟩
  let c : Ctx := if found.isNone then abortWithError [] 500 .noRows else []
  -- ciphertext, err := os.ReadFile(fmt.Sprintf("store/%x", metadata.Filename))
  let t := t ++ [Call.readFile (blobPath metadata.Filename)]
  let file := db.files (blobPath metadata.Filename)
  let ciphertext := file.getD []
  let c := if file.isNone then abortWithError c 500 .readFile else c
  -- content := decrypt(ciphertext, contentKey, metadata.ContentNonce)
  let t := t ++ [Call.decrypt ciphertext contentKey metadata.ContentNonce]
  match decrypt L ciphertext contentKey metadata.ContentNonce with
  | none => ⟨db, c, t, none⟩
  | some content =>
  -- filename := decrypt(metadata.Filename, filenameKey, metadata.FilenameNonce)
  let t := t ++ [Call.decrypt metadata.Filename filenameKey metadata.FilenameNonce]
  match decrypt L metadata.Filename filenameKey metadata.FilenameNonce with
  | none => ⟨db, c, t, none⟩
  | some filename => ⟨db, c, t, some (filename, content)⟩

/-! ## A small library instance for concrete runs -/

/-- One-byte tag over key, nonce and plaintext. -/
def toyTag (key nonce plaintext : Bytes) : Byte :=
  (key ++ nonce ++ plaintext).foldl (fun a b => a + b + 1) 7

/-- Library instance for evaluating the program: byte `i` of the key stream is `i` plus
a sum over the password, sealing prepends a tag, opening checks it. -/
def toyLib : Lib where
  scrypt := fun password _ _ _ _ keyLen =>
    ⟨(List.range keyLen).map fun i => password.foldl (fun a b => a + b + 1) (Fin.ofNat i),
      by simp⟩
  gcmSeal := fun key nonce plaintext => toyTag key nonce plaintext :: plaintext
  gcmOpen := fun key nonce ciphertext =>
    match ciphertext with
    | [] => none
    | t :: p => if t = toyTag key nonce p then some p else none
  newMnemonic := fun entropy =>
    if entropy.length % 4 = 0 ∧ 16 ≤ entropy.length ∧ entropy.length ≤ 32 then some entropy
    else none

/-! ## Reference descriptions and derived notions -/

/-- Output of the scrypt call of `mnemonicToKeys` for mnemonic `m`. -/
def derivedMaterial (L : Lib) (m : Bytes) : Bytes :=
  (L.scrypt m salt (1 <<< 15) 8 1 96).val

/-- First key returned by `mnemonicToKeys` (`passphraseHash`), the lookup key. -/
def lookupKey (L : Lib) (m : Bytes) : Bytes :=
  match mnemonicToKeys L m with
  | some (passphraseHash, _, _) => passphraseHash
  | none => []

/-- Second key returned by `mnemonicToKeys`. -/
def contentKey (L : Lib) (m : Bytes) : Bytes :=
  match mnemonicToKeys L m with
  | some (_, contentKey, _) => contentKey
  | none => []

/-- Third key returned by `mnemonicToKeys`. -/
def filenameKey (L : Lib) (m : Bytes) : Bytes :=
  match mnemonicToKeys L m with
  | some (_, _, filenameKey) => filenameKey
  | none => []

/-- Character of one hexadecimal digit value, lowercase. -/
def hexChar (n : Nat) : Char :=
  if n < 10 then Char.ofNat (48 + n) else Char.ofNat (87 + n)

/-- Lowercase hexadecimal text of a byte string: per byte two characters, the most
significant nibble first. -/
def lowerHex : Bytes → List Char
  | [] => []
  | b :: bs => hexChar (b.val / 16) :: hexChar (b.val % 16) :: lowerHex bs

/-- Mnemonic a `storeFile` run works with: empty when `bip39.NewMnemonic` fails. -/
def World.mnemonic (L : Lib) (w : World) : Bytes :=
  (L.newMnemonic w.entropy).getD []

/-- Sealed content a `storeFile` run produces from what `io.ReadAll` returned. -/
def builtBlob (L : Lib) (w : World) (content : Bytes) : Bytes :=
  L.gcmSeal (((derivedMaterial L (w.mnemonic L)).drop 32).take 32)
    (readFull w.contentRand 12) content

/-- Row a `storeFile` run hands to the INSERT. -/
def builtRow (L : Lib) (w : World) (filename : Bytes) : StoreMetadata :=
  { PassphraseHash := (derivedMaterial L (w.mnemonic L)).take 32
    Filename := L.gcmSeal ((derivedMaterial L (w.mnemonic L)).drop 64)
      (readFull w.filenameRand 12) filename
    ContentNonce := readFull w.contentRand 12
    FilenameNonce := readFull w.filenameRand 12 }

/-- Context errors of a `storeFile` run that reaches its `return`. -/
def storeErrors (L : Lib) (w : World) (fh : FileHeader) (readErr : Bool) (db : Store) : Ctx :=
  (if fh.openErr then [(400, Err.fileOpen)] else [])
    ++ (if readErr then [(500, Err.readAll)] else [])
    ++ (if w.entropyErr then [(500, Err.entropy)] else [])
    ++ (if (L.newMnemonic w.entropy).isNone then [(500, Err.mnemonic)] else [])
    ++ (if (txInsert db.rows w.insertErr (builtRow L w fh.Filename)).isNone
          then [(500, Err.insert)] else [])
    ++ (if w.write = WriteOutcome.ok then [] else [(500, Err.writeFile)])
    ++ (if w.commitErr then [(500, Err.commit)] else [])

/-- Stores that arise from a store without rows by any number of `storeFile` calls,
whatever the uploads and whatever fails on the way. -/
inductive Reachable (L : Lib) : Store → Prop
  | init (files : String → Option Bytes) : Reachable L ⟨[], files⟩
  | store (w : World) (fh : FileHeader) (db : Store) :
      Reachable L db → Reachable L (storeFile L w fh db).db

/-! ## Concrete runs -/

/-- Store with no row and no file. -/
def emptyStore : Store := ⟨[], fun _ => none⟩

/-- Surroundings in which nothing fails. -/
def calmWorld : World :=
  { entropy := List.replicate 32 1
    entropyErr := false
    contentRand := [1, 2, 3, 4, 5, 6, 7, 8, 9, 10, 11, 12]
    filenameRand := [3, 2, 3, 4, 5, 6, 7, 8, 9, 10, 11, 12]
    beginErr := false
    insertErr := false
    write := WriteOutcome.ok
    commitErr := false }

/-- Upload named "AB" with content 01 02 03. -/
def uploadAB : FileHeader := ⟨[65, 66], false, some ([1, 2, 3], false)⟩

/-- Upload named "CD" with content 09 09. -/
def uploadCD : FileHeader := ⟨[67, 68], false, some ([9, 9], false)⟩

/-- Surroundings in which `os.WriteFile` cannot create the file. -/
def writeFailWorld : World := { calmWorld with write := WriteOutcome.openFails }

/-- Surroundings in which `bip39.NewEntropy` reports an error of the random source and
returns its 32-byte buffer still zeroed. -/
def zeroEntropyWorld : World :=
  { calmWorld with entropy := List.replicate 32 0, entropyErr := true }

/-- Surroundings in which `bip39.NewEntropy` fails and returns nil. -/
def noEntropyWorld : World := { calmWorld with entropy := [], entropyErr := true }

/-- Surroundings that repeat the entropy of `calmWorld` with other nonce bytes. -/
def sameEntropyWorld : World :=
  { calmWorld with
    contentRand := [5, 2, 3, 4, 5, 6, 7, 8, 9, 10, 11, 12]
    filenameRand := [7, 2, 3, 4, 5, 6, 7, 8, 9, 10, 11, 12] }

/-- Phrase generated under `calmWorld` with `toyLib`. -/
def phraseA : Bytes := List.replicate 32 1

/-- Store after `uploadAB` was stored in the empty store. -/
def storeAB : Store := (storeFile toyLib calmWorld uploadAB emptyStore).db

/-- As `storeAB`, with the first byte of the stored blob altered. -/
def tamperedStore : Store :=
  ⟨storeAB.rows, Function.update storeAB.files "store/f84142" (some [0, 1, 2, 3])⟩

/-! # Theorems -/

/-! ## Key derivation -/

theorem scryptParamsOk_main : scryptParamsOk (1 <<< 15) 8 1 = true := by decide

theorem scryptKey_main (L : Lib) (m : Bytes) :
    scryptKey L m salt (1 <<< 15) 8 1 96 = some (derivedMaterial L m) := by
  unfold scryptKey
  rw [scryptParamsOk_main]
  rfl

theorem derivedMaterial_length (L : Lib) (m : Bytes) : (derivedMaterial L m).length = 96 :=
  (L.scrypt m salt (1 <<< 15) 8 1 96).property

theorem mnemonicToKeys_eq (L : Lib) (m : Bytes) :
    mnemonicToKeys L m =
      some ((derivedMaterial L m).take 32, ((derivedMaterial L m).drop 32).take 32,
        (derivedMaterial L m).drop 64) := by
  have hlen := derivedMaterial_length L m
  have h3 : ((derivedMaterial L m).drop 64).take 32 = (derivedMaterial L m).drop 64 := by
    apply List.take_of_length_le
    simp [hlen]
  unfold mnemonicToKeys
  rw [scryptKey_main]
  simp [goSlice, hlen, h3]

theorem lookupKey_eq (L : Lib) (m : Bytes) : lookupKey L m = (derivedMaterial L m).take 32 := by
  simp [lookupKey, mnemonicToKeys_eq]

theorem contentKey_eq (L : Lib) (m : Bytes) :
    contentKey L m = ((derivedMaterial L m).drop 32).take 32 := by
  simp [contentKey, mnemonicToKeys_eq]

theorem filenameKey_eq (L : Lib) (m : Bytes) :
    filenameKey L m = (derivedMaterial L m).drop 64 := by
  simp [filenameKey, mnemonicToKeys_eq]

/-! ## Blob address -/

set_option maxRecDepth 100000 in
theorem ldigits_hi (c : Byte) : ldigits.getD (c.val >>> 4) '0' = hexChar (c.val / 16) := by
  revert c; decide

set_option maxRecDepth 100000 in
theorem ldigits_lo (c : Byte) : ldigits.getD (c.val &&& 0xF) '0' = hexChar (c.val % 16) := by
  revert c; decide

theorem fmtSbx_eq_lowerHex (e : Bytes) : fmtSbx e = lowerHex e := by
  induction e with
  | nil => rfl
  | cons b bs ih =>
    have : fmtSbx (b :: bs) = [ldigits.getD (b.val >>> 4) '0', ldigits.getD (b.val &&& 0xF) '0']
        ++ fmtSbx bs := by simp [fmtSbx]
    rw [this, ih, ldigits_hi, ldigits_lo]; rfl

theorem hexChar_inj (a b : Fin 16) (h : hexChar a.val = hexChar b.val) : a = b := by
  revert a b; decide

theorem byte_eq_of_hex (a b : Byte) (h1 : hexChar (a.val / 16) = hexChar (b.val / 16))
    (h2 : hexChar (a.val % 16) = hexChar (b.val % 16)) : a = b := by
  have ha := a.isLt
  have hb := b.isLt
  have e1 := hexChar_inj ⟨a.val / 16, by omega⟩ ⟨b.val / 16, by omega⟩ h1
  have e2 := hexChar_inj ⟨a.val % 16, by omega⟩ ⟨b.val % 16, by omega⟩ h2
  simp only [Fin.mk.injEq] at e1 e2
  apply Fin.ext
  omega

theorem lowerHex_inj : ∀ (e e' : Bytes), lowerHex e = lowerHex e' → e = e'
  | [], [], _ => rfl
  | [], _ :: _, h => by simp [lowerHex] at h
  | _ :: _, [], h => by simp [lowerHex] at h
  | a :: as, b :: bs, h => by
    simp only [lowerHex, List.cons.injEq] at h
    obtain ⟨h1, h2, h3⟩ := h
    rw [byte_eq_of_hex a b h1 h2, lowerHex_inj as bs h3]

theorem lowerHex_length (e : Bytes) : (lowerHex e).length = 2 * e.length := by
  induction e with
  | nil => rfl
  | cons b bs ih => simp [lowerHex, ih]; omega

theorem blobPath_inj (e e' : Bytes) (h : blobPath e = blobPath e') : e = e' := by
  have h1 := congrArg String.data h
  simp only [blobPath, String.data_append, List.append_cancel_left_eq] at h1
  rw [fmtSbx_eq_lowerHex, fmtSbx_eq_lowerHex] at h1
  exact lowerHex_inj e e' h1

/-! ## Running the two functions -/

theorem readFull_length (d : Bytes) (n : Nat) : (readFull d n).length = n := by
  simp [readFull]; omega

theorem contentKey_length (L : Lib) (m : Bytes) :
    (((derivedMaterial L m).drop 32).take 32).length = 32 := by
  simp [derivedMaterial_length]

theorem filenameKey_length (L : Lib) (m : Bytes) :
    ((derivedMaterial L m).drop 64).length = 32 := by
  simp [derivedMaterial_length]

theorem passphraseHash_length (L : Lib) (m : Bytes) :
    ((derivedMaterial L m).take 32).length = 32 := by
  simp [derivedMaterial_length]

theorem encrypt_eq (L : Lib) (rnd plaintext key : Bytes) (h : key.length = 32) :
    encrypt L rnd plaintext key
      = some (L.gcmSeal key (readFull rnd 12) plaintext, readFull rnd 12) := by
  simp [encrypt, aesKeyOk, h, gcmNonceSize]

theorem decrypt_eq (L : Lib) (ciphertext key nonce : Bytes) (h : key.length = 32)
    (hn : nonce.length = 12) :
    decrypt L ciphertext key nonce = some ((L.gcmOpen key nonce ciphertext).getD []) := by
  simp [decrypt, aesKeyOk, h, hn, gcmNonceSize]

theorem decrypt_bad_nonce (L : Lib) (ciphertext key nonce : Bytes) (hn : nonce.length ≠ 12) :
    decrypt L ciphertext key nonce = none := by
  simp [decrypt, hn, gcmNonceSize]

theorem osWriteFile_err (files : String → Option Bytes) (path : String) (data : Bytes)
    (o : WriteOutcome) : (osWriteFile files path data o).2 = !decide (o = WriteOutcome.ok) := by
  cases o <;> simp [osWriteFile]

theorem ite_abort (b : Prop) [Decidable b] (c : Ctx) (code : Nat) (err : Err) :
    (if b then abortWithError c code err else c) = c ++ (if b then [(code, err)] else []) := by
  unfold abortWithError
  split <;> simp

theorem storeFile_run (L : Lib) (w : World) (fh : FileHeader) (db : Store) (content : Bytes)
    (readErr : Bool) (hread : fh.readAll = some (content, readErr)) (hbegin : w.beginErr = false) :
    storeFile L w fh db =
      { db := { rows := txCommit db.rows (txInsert db.rows w.insertErr (builtRow L w fh.Filename))
                  w.commitErr
                files := (osWriteFile db.files (blobPath (builtRow L w fh.Filename).Filename)
                  (builtBlob L w content) w.write).1 }
        errors := storeErrors L w fh readErr db
        calls := [Call.derive (w.mnemonic L),
          Call.encrypt content (((derivedMaterial L (w.mnemonic L)).drop 32).take 32),
          Call.encrypt fh.Filename ((derivedMaterial L (w.mnemonic L)).drop 64),
          Call.insert (builtRow L w fh.Filename),
          Call.writeFile (blobPath (builtRow L w fh.Filename).Filename) (builtBlob L w content),
          Call.commit]
        ret := some (w.mnemonic L) } := by
  unfold storeFile
  rw [hread]
  simp only [mnemonicToKeys_eq, encrypt_eq, contentKey_length, filenameKey_length, hbegin]
  simp only [ite_abort]
  simp [builtRow, builtBlob, World.mnemonic, storeErrors, osWriteFile_err]

theorem storeFile_readAll_panic (L : Lib) (w : World) (fh : FileHeader) (db : Store)
    (hread : fh.readAll = none) :
    storeFile L w fh db
      = ⟨db, if fh.openErr then [(400, Err.fileOpen)] else [], [], none⟩ := by
  unfold storeFile
  rw [hread]
  simp [abortWithError]

theorem storeFile_begin_panic (L : Lib) (w : World) (fh : FileHeader) (db : Store)
    (content : Bytes) (readErr : Bool) (hread : fh.readAll = some (content, readErr))
    (hbegin : w.beginErr = true) :
    (storeFile L w fh db).db = db ∧ (storeFile L w fh db).ret = none ∧
    (storeFile L w fh db).calls = [Call.derive (w.mnemonic L),
          Call.encrypt content (((derivedMaterial L (w.mnemonic L)).drop 32).take 32),
          Call.encrypt fh.Filename ((derivedMaterial L (w.mnemonic L)).drop 64)] := by
  unfold storeFile
  rw [hread]
  simp only [mnemonicToKeys_eq, encrypt_eq, contentKey_length, filenameKey_length, hbegin]
  simp [World.mnemonic]

theorem retrieveFile_missing (L : Lib) (m : Bytes) (db : Store)
    (h : dbGet db.rows ((derivedMaterial L m).take 32) = none) :
    retrieveFile L m db =
      { db := db
        errors := [(500, Err.noRows)]
          ++ (if (db.files "store/").isNone then [(500, Err.readFile)] else [])
        calls := [Call.derive m, Call.get ((derivedMaterial L m).take 32),
          Call.readFile "store/",
          Call.decrypt ((db.files "store/").getD []) (((derivedMaterial L m).drop 32).take 32) []]
        ret := none } := by
  have hp : blobPath [] = "store/" := by decide
  unfold retrieveFile
  simp only [mnemonicToKeys_eq, h, ite_abort, Option.getD_none, hp]
  rw [decrypt_bad_nonce L _ _ [] (by simp)]
  simp

theorem retrieveFile_found (L : Lib) (m : Bytes) (db : Store) (row : StoreMetadata)
    (h : dbGet db.rows ((derivedMaterial L m).take 32) = some row)
    (hc : row.ContentNonce.length = 12) (hf : row.FilenameNonce.length = 12) :
    retrieveFile L m db =
      { db := db
        errors := if (db.files (blobPath row.Filename)).isNone then [(500, Err.readFile)] else []
        calls := [Call.derive m, Call.get ((derivedMaterial L m).take 32),
          Call.readFile (blobPath row.Filename),
          Call.decrypt ((db.files (blobPath row.Filename)).getD [])
            (((derivedMaterial L m).drop 32).take 32) row.ContentNonce,
          Call.decrypt row.Filename ((derivedMaterial L m).drop 64) row.FilenameNonce]
        ret := some
          ((L.gcmOpen ((derivedMaterial L m).drop 64) row.FilenameNonce row.Filename).getD [],
           (L.gcmOpen (((derivedMaterial L m).drop 32).take 32) row.ContentNonce
              ((db.files (blobPath row.Filename)).getD [])).getD []) } := by
  unfold retrieveFile
  simp only [mnemonicToKeys_eq, h, ite_abort, Option.getD_some]
  rw [decrypt_eq L _ _ _ (contentKey_length L m) hc,
    decrypt_eq L _ _ _ (filenameKey_length L m) hf]
  simp

theorem hexChar_digits : ∀ n : Fin 16, "0123456789abcdef".toList[n.val]? = some (hexChar n.val) := by
  decide

theorem lowerHex_getElem (e : Bytes) :
    ∀ i (h : i < e.length),
      (lowerHex e)[2 * i]? = some (hexChar (e[i].val / 16)) ∧
      (lowerHex e)[2 * i + 1]? = some (hexChar (e[i].val % 16)) := by
  induction e with
  | nil => intro i h; simp at h
  | cons b bs ih =>
    intro i h
    cases i with
    | zero => simp [lowerHex]
    | succ j =>
      have hj : j < bs.length := by simpa using h
      have e1 : 2 * (j + 1) = (2 * j) + 1 + 1 := by ring
      have e2 : 2 * (j + 1) + 1 = (2 * j + 1) + 1 + 1 := by ring
      have := ih j hj
      simp only [lowerHex, e1, e2, List.getElem?_cons_succ, List.getElem_cons_succ]
      exact this

theorem lowerHex_chars (e : Bytes) : ∀ c ∈ lowerHex e, c ∈ "0123456789abcdef".toList := by
  have key : ∀ n, n < 16 → hexChar n ∈ "0123456789abcdef".toList := by
    intro n hn
    have := hexChar_digits ⟨n, hn⟩
    exact List.getElem?_mem this
  induction e with
  | nil => intro c h; simp [lowerHex] at h
  | cons b bs ih =>
    intro c h
    simp only [lowerHex, List.mem_cons] at h
    rcases h with h | h | h
    · rw [h]; exact key _ (by have := b.isLt; omega)
    · rw [h]; exact key _ (by omega)
    · exact ih c h

theorem blobPath_eq (e : Bytes) : blobPath e = "store/" ++ String.mk (lowerHex e) := by
  rw [blobPath, fmtSbx_eq_lowerHex]

theorem storeFile_calls (L : Lib) (w : World) (fh : FileHeader) (db : Store) :
    (storeFile L w fh db).calls <+: [Call.derive (w.mnemonic L),
          Call.encrypt ((fh.readAll.getD ([], false)).1)
            (((derivedMaterial L (w.mnemonic L)).drop 32).take 32),
          Call.encrypt fh.Filename ((derivedMaterial L (w.mnemonic L)).drop 64),
          Call.insert (builtRow L w fh.Filename),
          Call.writeFile (blobPath (builtRow L w fh.Filename).Filename)
            (builtBlob L w (fh.readAll.getD ([], false)).1),
          Call.commit] := by
  cases hread : fh.readAll with
  | none => rw [storeFile_readAll_panic L w fh db hread]; simp
  | some cr =>
    obtain ⟨content, readErr⟩ := cr
    cases hbegin : w.beginErr with
    | true =>
      rw [(storeFile_begin_panic L w fh db content readErr hread hbegin).2.2]
      exact ⟨_, rfl⟩
    | false =>
      rw [storeFile_run L w fh db content readErr hread hbegin]
      exact List.prefix_refl _

theorem retrieveFile_calls (L : Lib) (m : Bytes) (db : Store) :
    (retrieveFile L m db).calls <+: [Call.derive m, Call.get ((derivedMaterial L m).take 32),
      Call.readFile (blobPath ((dbGet db.rows ((derivedMaterial L m).take 32)).getD
        ⟨[], [], [], []⟩).Filename),
      Call.decrypt ((db.files (blobPath ((dbGet db.rows ((derivedMaterial L m).take 32)).getD
          ⟨[], [], [], []⟩).Filename)).getD [])
        (((derivedMaterial L m).drop 32).take 32)
        ((dbGet db.rows ((derivedMaterial L m).take 32)).getD ⟨[], [], [], []⟩).ContentNonce,
      Call.decrypt ((dbGet db.rows ((derivedMaterial L m).take 32)).getD ⟨[], [], [], []⟩).Filename
        ((derivedMaterial L m).drop 64)
        ((dbGet db.rows ((derivedMaterial L m).take 32)).getD ⟨[], [], [], []⟩).FilenameNonce] := by
  unfold retrieveFile
  simp only [mnemonicToKeys_eq]
  split
  · exact ⟨[_], rfl⟩
  · split
    · exact List.prefix_refl _
    · exact List.prefix_refl _

theorem retrieveFile_db (L : Lib) (m : Bytes) (db : Store) : (retrieveFile L m db).db = db := by
  unfold retrieveFile
  simp only [mnemonicToKeys_eq]
  split
  · rfl
  · split <;> rfl

theorem storeFile_rows (L : Lib) (w : World) (fh : FileHeader) (db : Store) :
    (storeFile L w fh db).db.rows = db.rows ∨
    (storeFile L w fh db).db.rows = db.rows ++ [builtRow L w fh.Filename] := by
  cases hread : fh.readAll with
  | none => rw [storeFile_readAll_panic L w fh db hread]; exact Or.inl rfl
  | some cr =>
    obtain ⟨content, readErr⟩ := cr
    cases hbegin : w.beginErr with
    | true => rw [(storeFile_begin_panic L w fh db content readErr hread hbegin).1]; exact Or.inl rfl
    | false =>
      rw [storeFile_run L w fh db content readErr hread hbegin]
      simp only [txCommit, txInsert]
      split
      · exact Or.inl rfl
      · split
        · left; simp
        · right; simp

theorem dbGet_append (rows : List StoreMetadata) (r row : StoreMetadata) (k : Bytes)
    (h : dbGet rows k = some row) : dbGet (rows ++ [r]) k = some row := by
  unfold dbGet at *
  rw [List.find?_append, h]
  rfl

theorem builtRow_nonces (L : Lib) (w : World) (filename : Bytes) :
    (builtRow L w filename).ContentNonce.length = 12 ∧
    (builtRow L w filename).FilenameNonce.length = 12 :=
  ⟨readFull_length _ _, readFull_length _ _⟩

theorem reachable_nonces (L : Lib) (db : Store) (h : Reachable L db) :
    ∀ row ∈ db.rows, row.ContentNonce.length = 12 ∧ row.FilenameNonce.length = 12 := by
  induction h with
  | init files => intro row hrow; simp at hrow
  | store w fh db _ ih =>
    intro row hrow
    rcases storeFile_rows L w fh db with h | h
    · rw [h] at hrow; exact ih row hrow
    · rw [h, List.mem_append, List.mem_singleton] at hrow
      rcases hrow with hrow | hrow
      · exact ih row hrow
      · rw [hrow]; exact builtRow_nonces L w fh.Filename

theorem dbGet_mem (rows : List StoreMetadata) (k : Bytes) (row : StoreMetadata)
    (h : dbGet rows k = some row) : row ∈ rows ∧ row.PassphraseHash = k := by
  unfold dbGet at h
  refine ⟨List.mem_of_find?_eq_some h, ?_⟩
  simpa using List.find?_some h

theorem retrieveFile_reads (L : Lib) (m : Bytes) (db : Store) (row : StoreMetadata)
    (h : dbGet db.rows ((derivedMaterial L m).take 32) = some row) :
    Call.readFile (blobPath row.Filename) ∈ (retrieveFile L m db).calls ∧
    Call.decrypt ((db.files (blobPath row.Filename)).getD [])
      (((derivedMaterial L m).drop 32).take 32) row.ContentNonce
      ∈ (retrieveFile L m db).calls := by
  unfold retrieveFile
  simp only [mnemonicToKeys_eq, h, Option.getD_some]
  split
  · simp
  · split <;> simp

/-! ## Claims -/

/-- C7. For every mnemonic `m` the call `scrypt.Key(bytes(m), d6 ef 7d 0c c9 97 4b e1, 2^15, 8, 1, 96)`
succeeds with a 96-byte output `D`, and `mnemonicToKeys m` returns the three keys
`D[0:32]`, `D[32:64]`, `D[64:96]`: each 32 bytes long, byte `i` of them being bytes `i`,
`32 + i` and `64 + i` of `D`, their concatenation being `D`; the triple is determined by
`m` alone. -/
theorem mnemonicToKeys_layout (L : Lib) (m : Bytes) :
    ∃ D k1 k2 k3 : Bytes,
      scryptKey L m [0xd6, 0xef, 0x7d, 0x0c, 0xc9, 0x97, 0x4b, 0xe1] (2 ^ 15) 8 1 96 = some D ∧
      D.length = 96 ∧
      mnemonicToKeys L m = some (k1, k2, k3) ∧
      k1.length = 32 ∧ k2.length = 32 ∧ k3.length = 32 ∧
      (∀ i, i < 32 → k1[i]? = D[i]? ∧ k2[i]? = D[32 + i]? ∧ k3[i]? = D[64 + i]?) ∧
      k1 ++ k2 ++ k3 = D ∧
      ∀ m', m' = m → mnemonicToKeys L m' = some (k1, k2, k3) := by
  refine ⟨derivedMaterial L m, (derivedMaterial L m).take 32,
    ((derivedMaterial L m).drop 32).take 32, (derivedMaterial L m).drop 64,
    scryptKey_main L m, derivedMaterial_length L m, mnemonicToKeys_eq L m,
    passphraseHash_length L m, contentKey_length L m, filenameKey_length L m, ?_, ?_, ?_⟩
  · intro i hi
    refine ⟨?_, ?_, ?_⟩
    · simp [List.getElem?_take, hi]
    · simp [List.getElem?_take, hi]
    · simp
  · rw [← List.take_add]
    exact List.take_append_drop 64 (derivedMaterial L m)
  · intro m' h
    rw [h, mnemonicToKeys_eq]

/-- C8. For every encrypted-filename byte string `e` the blob path is "store/" followed by
the lowercase hexadecimal text of `e`: `2 * len(e)` characters, all from 0-9a-f, characters
`2i` and `2i + 1` being the digits of the high and the low nibble of byte `i`; the path
determines `e`.  `storeFile` writes only to the path of the encrypted filename it puts in
its row, and `retrieveFile` reads only from the path of the encrypted filename of the row
it looked up.  A `storeFile` run that returns phrase `m` has offered a row whose filename
field is the file name sealed under the filename key of `m`, and has called
`os.WriteFile` at the blob path of that field with the sealed content; when the write
succeeds the file at that path holds it.  A `retrieveFile` run whose row is found calls
`os.ReadFile` at the blob path of the row's filename field and hands `decrypt` what the
store holds there; with 12-byte nonces the content it returns is what that file opens
to. -/
theorem blobPath_lowerHex (L : Lib) (e : Bytes) :
    blobPath e = "store/" ++ String.mk (lowerHex e) ∧
    (lowerHex e).length = 2 * e.length ∧
    (∀ i (h : i < e.length),
      (lowerHex e)[2 * i]? = "0123456789abcdef".toList[e[i].val / 16]? ∧
      (lowerHex e)[2 * i + 1]? = "0123456789abcdef".toList[e[i].val % 16]?) ∧
    (∀ c ∈ lowerHex e, c ∈ "0123456789abcdef".toList) ∧
    (∀ e', blobPath e = blobPath e' → e = e') ∧
    (∀ w fh db path data, Call.writeFile path data ∈ (storeFile L w fh db).calls →
      Call.insert (builtRow L w fh.Filename) ∈ (storeFile L w fh db).calls ∧
      path = blobPath (builtRow L w fh.Filename).Filename) ∧
    (∀ w fh db path, path ≠ blobPath (builtRow L w fh.Filename).Filename →
      (storeFile L w fh db).db.files path = db.files path) ∧
    (∀ m db path, Call.readFile path ∈ (retrieveFile L m db).calls →
      path = blobPath
        ((dbGet db.rows (lookupKey L m)).getD ⟨[], [], [], []⟩).Filename) ∧
    (∀ w fh db m, (storeFile L w fh db).ret = some m →
      ∃ row blob content readErr,
        fh.readAll = some (content, readErr) ∧
        Call.insert row ∈ (storeFile L w fh db).calls ∧
        row.Filename = L.gcmSeal (filenameKey L m) row.FilenameNonce fh.Filename ∧
        blob = L.gcmSeal (contentKey L m) row.ContentNonce content ∧
        Call.writeFile (blobPath row.Filename) blob ∈ (storeFile L w fh db).calls ∧
        (w.write = WriteOutcome.ok →
          (storeFile L w fh db).db.files (blobPath row.Filename) = some blob)) ∧
    (∀ m db row, dbGet db.rows (lookupKey L m) = some row →
      Call.readFile (blobPath row.Filename) ∈ (retrieveFile L m db).calls ∧
      Call.decrypt ((db.files (blobPath row.Filename)).getD []) (contentKey L m)
        row.ContentNonce ∈ (retrieveFile L m db).calls ∧
      (row.ContentNonce.length = 12 → row.FilenameNonce.length = 12 →
        ∃ filename, (retrieveFile L m db).ret = some (filename,
          (L.gcmOpen (contentKey L m) row.ContentNonce
            ((db.files (blobPath row.Filename)).getD [])).getD []))) := by
  refine ⟨blobPath_eq e, lowerHex_length e, ?_, lowerHex_chars e, fun e' => blobPath_inj e e',
    ?_, ?_, ?_, ?_, ?_⟩
  · intro i h
    have hb := (e[i]).isLt
    obtain ⟨h1, h2⟩ := lowerHex_getElem e i h
    rw [h1, h2]
    exact ⟨(hexChar_digits ⟨e[i].val / 16, by omega⟩).symm,
      (hexChar_digits ⟨e[i].val % 16, by omega⟩).symm⟩
  · intro w fh db path data hmem
    cases hread : fh.readAll with
    | none => rw [storeFile_readAll_panic L w fh db hread] at hmem; simp at hmem
    | some cr =>
      obtain ⟨content, readErr⟩ := cr
      cases hbegin : w.beginErr with
      | true =>
        rw [(storeFile_begin_panic L w fh db content readErr hread hbegin).2.2] at hmem
        simp at hmem
      | false =>
        rw [storeFile_run L w fh db content readErr hread hbegin] at hmem ⊢
        simp at hmem ⊢
        exact hmem.1
  · intro w fh db path hne
    cases hread : fh.readAll with
    | none => rw [storeFile_readAll_panic L w fh db hread]
    | some cr =>
      obtain ⟨content, readErr⟩ := cr
      cases hbegin : w.beginErr with
      | true => rw [(storeFile_begin_panic L w fh db content readErr hread hbegin).1]
      | false =>
        rw [storeFile_run L w fh db content readErr hread hbegin]
        cases w.write <;> simp [osWriteFile, Function.update, hne]
  · intro m db path hmem
    have := (retrieveFile_calls L m db).subset hmem
    rw [lookupKey_eq]
    simp at this
    exact this
  · intro w fh db m hret
    cases hread : fh.readAll with
    | none =>
      rw [storeFile_readAll_panic L w fh db hread] at hret
      exact absurd hret (by simp)
    | some cr =>
      obtain ⟨content, readErr⟩ := cr
      cases hbegin : w.beginErr with
      | true =>
        rw [(storeFile_begin_panic L w fh db content readErr hread hbegin).2.1] at hret
        exact absurd hret (by simp)
      | false =>
        rw [storeFile_run L w fh db content readErr hread hbegin] at hret ⊢
        simp only [Option.some.injEq] at hret
        refine ⟨builtRow L w fh.Filename, builtBlob L w content, content, readErr, rfl,
          by simp, ?_, ?_, by simp, ?_⟩
        · rw [filenameKey_eq, ← hret]; rfl
        · rw [contentKey_eq, ← hret]; rfl
        · intro hw
          simp [hw, osWriteFile]
  · intro m db row hrow
    rw [lookupKey_eq] at hrow
    rw [contentKey_eq]
    refine ⟨(retrieveFile_reads L m db row hrow).1, (retrieveFile_reads L m db row hrow).2, ?_⟩
    intro hc hf
    rw [retrieveFile_found L m db row hrow hc hf]
    exact ⟨_, rfl⟩

/-- C9. Every row present before a `storeFile` call (any upload, any failure pattern) or a
`retrieveFile` call (any phrase) is present, field for field, afterwards, and is still the
row found under its key; `retrieveFile` leaves rows and files as they were, so repeating it
on the state it leaves gives the same outcome. -/
theorem append_only (L : Lib) (w : World) (fh : FileHeader) (m : Bytes) (db : Store) :
    (∀ row ∈ db.rows, row ∈ (storeFile L w fh db).db.rows) ∧
    db.rows <+: (storeFile L w fh db).db.rows ∧
    (∀ k row, dbGet db.rows k = some row →
      dbGet (storeFile L w fh db).db.rows k = some row) ∧
    (∀ row ∈ db.rows, row ∈ (retrieveFile L m db).db.rows) ∧
    (retrieveFile L m db).db = db ∧
    retrieveFile L m (retrieveFile L m db).db = retrieveFile L m db := by
  refine ⟨?_, ?_, ?_, ?_, retrieveFile_db L m db, ?_⟩
  · intro row hrow
    rcases storeFile_rows L w fh db with h | h <;> rw [h]
    · exact hrow
    · exact List.mem_append_left _ hrow
  · rcases storeFile_rows L w fh db with h | h
    · rw [h]
    · rw [h]; exact List.prefix_append _ _
  · intro k row hk
    rcases storeFile_rows L w fh db with h | h <;> rw [h]
    · exact hk
    · exact dbGet_append _ _ _ _ hk
  · intro row hrow
    rw [retrieveFile_db]
    exact hrow
  · rw [retrieveFile_db]

/-- C10. The scrypt parameters of `mnemonicToKeys` (N = 32768, r = 8, p = 1) pass the
parameter check of `scrypt.Key`, so that call never returns its error; every key handed to
`encrypt` by `storeFile` and to `decrypt` by `retrieveFile` is 32 bytes long, which
`aes.NewCipher` accepts; in every store reached from a store without rows by `storeFile`
calls each row has 12-byte nonces, so a `retrieveFile` call whose row is found hands
`decrypt` only 12-byte nonces and does not panic. -/
theorem crypto_preconditions (L : Lib) :
    ((1 <<< 15 : Nat) = 32768 ∧ 1 < 32768 ∧ 32768 &&& (32768 - 1) = 0 ∧ 8 * 1 < 2 ^ 30 ∧
      scryptParamsOk (1 <<< 15) 8 1 = true) ∧
    (∀ m, (scryptKey L m salt (1 <<< 15) 8 1 96).isSome ∧ (mnemonicToKeys L m).isSome) ∧
    (∀ w fh db plaintext key, Call.encrypt plaintext key ∈ (storeFile L w fh db).calls →
      key.length = 32 ∧ aesKeyOk key = true) ∧
    (∀ m db ciphertext key nonce,
      Call.decrypt ciphertext key nonce ∈ (retrieveFile L m db).calls →
      key.length = 32 ∧ aesKeyOk key = true) ∧
    (∀ db, Reachable L db →
      ∀ row ∈ db.rows, row.ContentNonce.length = 12 ∧ row.FilenameNonce.length = 12) ∧
    (∀ db, Reachable L db → ∀ m row, dbGet db.rows (lookupKey L m) = some row →
      (∀ ciphertext key nonce,
        Call.decrypt ciphertext key nonce ∈ (retrieveFile L m db).calls →
        nonce.length = gcmNonceSize) ∧
      (retrieveFile L m db).ret.isSome) := by
  refine ⟨⟨by decide, by decide, by decide, by decide, scryptParamsOk_main⟩, ?_, ?_, ?_,
    reachable_nonces L, ?_⟩
  · intro m
    rw [scryptKey_main, mnemonicToKeys_eq]
    exact ⟨rfl, rfl⟩
  · intro w fh db plaintext key hmem
    have h := (storeFile_calls L w fh db).subset hmem
    simp only [List.mem_cons, List.mem_singleton, reduceCtorEq, Call.encrypt.injEq, false_or,
      or_false, List.not_mem_nil] at h
    rcases h with ⟨_, h⟩ | ⟨_, h⟩ <;> rw [h]
    · simp [aesKeyOk, derivedMaterial_length]
    · simp [aesKeyOk, derivedMaterial_length]
  · intro m db ciphertext key nonce hmem
    have h := (retrieveFile_calls L m db).subset hmem
    simp only [List.mem_cons, List.mem_singleton, reduceCtorEq, Call.decrypt.injEq, false_or,
      or_false, List.not_mem_nil] at h
    rcases h with ⟨_, h, _⟩ | ⟨_, h, _⟩ <;> rw [h]
    · simp [aesKeyOk, derivedMaterial_length]
    · simp [aesKeyOk, derivedMaterial_length]
  · intro db hdb m row hrow
    rw [lookupKey_eq] at hrow
    obtain ⟨hc, hf⟩ := reachable_nonces L db hdb row (dbGet_mem _ _ _ hrow).1
    rw [retrieveFile_found L m db row hrow hc hf]
    refine ⟨?_, rfl⟩
    intro ciphertext key nonce hmem
    simp only [List.mem_cons, List.mem_singleton, reduceCtorEq, Call.decrypt.injEq, false_or,
      or_false, List.not_mem_nil] at hmem
    rcases hmem with ⟨_, _, h⟩ | ⟨_, _, h⟩ <;> rw [h]
    · exact hc
    · exact hf

/-- C1. Round trip: when `storeFile` returns phrase `m` with no error recorded (no step
failed and the lookup key was new), `content` being what `io.ReadAll` gave it, then
`retrieveFile m` on the resulting stores returns the file name and `content`, with no
error, provided `Open` inverts `Seal` under the same 32-byte key and 12-byte nonce. -/
theorem round_trip (L : Lib)
    (hopen : ∀ key nonce plaintext, key.length = 32 → nonce.length = 12 →
      L.gcmOpen key nonce (L.gcmSeal key nonce plaintext) = some plaintext)
    (w : World) (fh : FileHeader) (db : Store) (content m : Bytes) (readErr : Bool)
    (hcontent : fh.readAll = some (content, readErr))
    (hret : (storeFile L w fh db).ret = some m)
    (herr : (storeFile L w fh db).errors = []) :
    (retrieveFile L m (storeFile L w fh db).db).ret = some (fh.Filename, content) ∧
    (retrieveFile L m (storeFile L w fh db).db).errors = [] := by
  have hbegin : w.beginErr = false := by
    cases hb : w.beginErr with
    | false => rfl
    | true =>
      rw [(storeFile_begin_panic L w fh db content readErr hcontent hb).2.1] at hret
      exact absurd hret (by simp)
  rw [storeFile_run L w fh db content readErr hcontent hbegin] at hret herr ⊢
  simp only [Option.some.injEq] at hret
  simp only [storeErrors, List.append_eq_nil, ite_eq_right_iff, List.cons_ne_self,
    imp_false, Bool.not_eq_true, ite_eq_left_iff, reduceCtorEq, not_not] at herr
  obtain ⟨⟨⟨⟨⟨⟨_, _⟩, _⟩, _⟩, hins⟩, hwrite⟩, hcommit⟩ := herr
  have hfresh : dbGet db.rows (builtRow L w fh.Filename).PassphraseHash = none := by
    cases hg : dbGet db.rows (builtRow L w fh.Filename).PassphraseHash with
    | none => rfl
    | some r => simp [txInsert, hg] at hins
  have hinsert : txInsert db.rows w.insertErr (builtRow L w fh.Filename)
      = some (builtRow L w fh.Filename) := by
    cases hi : txInsert db.rows w.insertErr (builtRow L w fh.Filename) with
    | none => simp [hi] at hins
    | some r =>
      unfold txInsert at hi
      split at hi
      · exact absurd hi (by simp)
      · exact hi.symm
  have hfound : dbGet (db.rows ++ [builtRow L w fh.Filename])
      (lookupKey L m) = some (builtRow L w fh.Filename) := by
    have hk : (builtRow L w fh.Filename).PassphraseHash = (derivedMaterial L m).take 32 := by
      rw [← hret]; rfl
    rw [lookupKey_eq]
    rw [← hk]
    unfold dbGet at hfresh ⊢
    rw [List.find?_append, hfresh]
    simp
  have hrows : txCommit db.rows (txInsert db.rows w.insertErr (builtRow L w fh.Filename))
      w.commitErr = db.rows ++ [builtRow L w fh.Filename] := by
    simp [txCommit, hcommit, hinsert]
  have hfile : (osWriteFile db.files (blobPath (builtRow L w fh.Filename).Filename)
      (builtBlob L w content) w.write).1 (blobPath (builtRow L w fh.Filename).Filename)
      = some (builtBlob L w content) := by
    simp [hwrite, osWriteFile]
  obtain ⟨hc, hf⟩ := builtRow_nonces L w fh.Filename
  rw [lookupKey_eq] at hfound
  rw [retrieveFile_found L m _ (builtRow L w fh.Filename) (by rw [hrows]; exact hfound) hc hf]
  simp only [hfile, Option.getD_some, Option.isNone_some, Bool.false_eq_true, if_false,
    and_true]
  rw [← hret]
  simp only [builtRow, builtBlob]
  rw [hopen _ _ _ (filenameKey_length L _) (readFull_length _ _),
    hopen _ _ _ (contentKey_length L _) (readFull_length _ _)]
  rfl

set_option maxRecDepth 100000 in
/-- Witness for `round_trip`: `uploadAB` stored in the empty store with nothing failing. -/
theorem round_trip_witness :
    (∀ key nonce plaintext, key.length = 32 → nonce.length = 12 →
      toyLib.gcmOpen key nonce (toyLib.gcmSeal key nonce plaintext) = some plaintext) ∧
    uploadAB.readAll = some ([1, 2, 3], false) ∧
    (storeFile toyLib calmWorld uploadAB emptyStore).ret = some phraseA ∧
    (storeFile toyLib calmWorld uploadAB emptyStore).errors = [] ∧
    (retrieveFile toyLib phraseA (storeFile toyLib calmWorld uploadAB emptyStore).db).ret
      = some ([65, 66], [1, 2, 3]) :=
  ⟨by intro key nonce plaintext _ _; simp [toyLib], rfl, by decide, by decide,
    (round_trip toyLib (by intro key nonce plaintext _ _; simp [toyLib]) calmWorld uploadAB
      emptyStore [1, 2, 3] phraseA false rfl (by decide) (by decide)).1⟩

set_option maxRecDepth 100000 in
/-- C3, counterexample. In `tamperedStore` the stored blob no longer verifies, yet
`retrieveFile` records no error and returns the file name with empty content; and
`decrypt` gives the same value for the altered blob as for a sealed empty plaintext. -/
theorem tamper_counterexample :
    tamperedStore.rows = storeAB.rows ∧
    tamperedStore.files "store/f84142" = some [0, 1, 2, 3] ∧
    storeAB.files "store/f84142" = some [122, 1, 2, 3] ∧
    toyLib.gcmOpen (contentKey toyLib phraseA)
      [1, 2, 3, 4, 5, 6, 7, 8, 9, 10, 11, 12] [0, 1, 2, 3] = none ∧
    (retrieveFile toyLib phraseA tamperedStore).errors = [] ∧
    (retrieveFile toyLib phraseA tamperedStore).ret = some ([65, 66], []) ∧
    decrypt toyLib [0, 1, 2, 3] (contentKey toyLib phraseA)
        [1, 2, 3, 4, 5, 6, 7, 8, 9, 10, 11, 12]
      = decrypt toyLib
          (toyLib.gcmSeal (contentKey toyLib phraseA)
            [1, 2, 3, 4, 5, 6, 7, 8, 9, 10, 11, 12] [])
          (contentKey toyLib phraseA)
          [1, 2, 3, 4, 5, 6, 7, 8, 9, 10, 11, 12] := by
  refine ⟨rfl, by decide, by decide, by decide, by decide, by decide, by decide⟩

/-- C3, amended. For a phrase whose row is found with 12-byte nonces and whose blob is
present: `retrieveFile` records no error and returns; where the content ciphertext does
not verify the returned content is empty, where the filename ciphertext does not verify
the returned file name is empty.  `decrypt` turns an authentication failure into the
empty plaintext, the value it also returns for a ciphertext that opens to the empty
plaintext. -/
theorem tamper_returns_empty (L : Lib) (m : Bytes) (db : Store) (row : StoreMetadata)
    (blob : Bytes)
    (hrow : dbGet db.rows (lookupKey L m) = some row)
    (hc : row.ContentNonce.length = 12) (hf : row.FilenameNonce.length = 12)
    (hblob : db.files (blobPath row.Filename) = some blob) :
    (retrieveFile L m db).errors = [] ∧
    (∃ filename content, (retrieveFile L m db).ret = some (filename, content) ∧
      (L.gcmOpen (contentKey L m) row.ContentNonce blob = none →
        content = []) ∧
      (L.gcmOpen (filenameKey L m) row.FilenameNonce row.Filename = none →
        filename = [])) ∧
    (∀ ciphertext key nonce, key.length = 32 → nonce.length = 12 →
      L.gcmOpen key nonce ciphertext = none → decrypt L ciphertext key nonce = some []) ∧
    (∀ ciphertext key nonce, key.length = 32 → nonce.length = 12 →
      L.gcmOpen key nonce ciphertext = some [] → decrypt L ciphertext key nonce = some []) := by
  rw [lookupKey_eq] at hrow
  rw [contentKey_eq, filenameKey_eq, retrieveFile_found L m db row hrow hc hf]
  refine ⟨by simp [hblob], ⟨_, _, rfl, ?_, ?_⟩, ?_, ?_⟩
  · intro h; simp [hblob, h]
  · intro h; simp [h]
  · intro ciphertext key nonce hk hn h
    rw [decrypt_eq L ciphertext key nonce hk hn, h]; rfl
  · intro ciphertext key nonce hk hn h
    rw [decrypt_eq L ciphertext key nonce hk hn, h]; rfl

set_option maxRecDepth 100000 in
/-- Witness for `tamper_returns_empty`: the altered blob of `tamperedStore`. -/
theorem tamper_returns_empty_witness :
    dbGet tamperedStore.rows (lookupKey toyLib phraseA)
      = some ⟨lookupKey toyLib phraseA, [248, 65, 66],
          [1, 2, 3, 4, 5, 6, 7, 8, 9, 10, 11, 12], [3, 2, 3, 4, 5, 6, 7, 8, 9, 10, 11, 12]⟩ ∧
    tamperedStore.files (blobPath [248, 65, 66]) = some [0, 1, 2, 3] ∧
    (retrieveFile toyLib phraseA tamperedStore).errors = [] :=
  ⟨by decide, by decide,
    (tamper_returns_empty toyLib phraseA tamperedStore
      ⟨lookupKey toyLib phraseA, [248, 65, 66],
        [1, 2, 3, 4, 5, 6, 7, 8, 9, 10, 11, 12], [3, 2, 3, 4, 5, 6, 7, 8, 9, 10, 11, 12]⟩
      [0, 1, 2, 3] (by decide) rfl rfl (by decide)).1⟩

set_option maxRecDepth 100000 in
/-- C5, counterexample. `storeAB` holds a row under the key of `phraseA`.  A second call
that generates the same phrase for `uploadCD` has its insert rejected; the phrase the
caller gets is `phraseA`, which retrieves the earlier upload, not `uploadCD`. -/
theorem collision_counterexample :
    (dbGet storeAB.rows (lookupKey toyLib phraseA)).isSome = true ∧
    (storeFile toyLib sameEntropyWorld uploadCD storeAB).errors = [(500, Err.insert)] ∧
    (storeFile toyLib sameEntropyWorld uploadCD storeAB).ret = some phraseA ∧
    (retrieveFile toyLib phraseA (storeFile toyLib sameEntropyWorld uploadCD storeAB).db).ret
      = some ([65, 66], [1, 2, 3]) ∧
    uploadCD.Filename = [67, 68] ∧ uploadCD.readAll = some ([9, 9], false) := by
  refine ⟨by decide, by decide, by decide, by decide, rfl, rfl⟩

/-- C5, amended. When a `storeFile` call generates mnemonic `m`, issues its INSERT, and
the store already holds a row under the lookup key of `m`: the row offered carries that
key, the insert is rejected with a 500 error recorded, the rows are exactly as before and
the existing row is still the one found under the key.  There is no retry: the call
derives keys from no other mnemonic and issues no other INSERT. -/
theorem collision_rejected (L : Lib) (w : World) (fh : FileHeader) (db : Store)
    (old row : StoreMetadata) (m : Bytes)
    (hderive : Call.derive m ∈ (storeFile L w fh db).calls)
    (hinsert : Call.insert row ∈ (storeFile L w fh db).calls)
    (hold : dbGet db.rows (lookupKey L m) = some old) :
    row.PassphraseHash = lookupKey L m ∧
    (500, Err.insert) ∈ (storeFile L w fh db).errors ∧
    (storeFile L w fh db).db.rows = db.rows ∧
    dbGet (storeFile L w fh db).db.rows (lookupKey L m) = some old ∧
    (∀ m', Call.derive m' ∈ (storeFile L w fh db).calls → m' = m) ∧
    (∀ row', Call.insert row' ∈ (storeFile L w fh db).calls → row' = row) := by
  rw [lookupKey_eq] at hold ⊢
  cases hread : fh.readAll with
  | none =>
    rw [storeFile_readAll_panic L w fh db hread] at hinsert
    simp at hinsert
  | some cr =>
    obtain ⟨content, readErr⟩ := cr
    cases hbegin : w.beginErr with
    | true =>
      rw [(storeFile_begin_panic L w fh db content readErr hread hbegin).2.2] at hinsert
      simp at hinsert
    | false =>
      rw [storeFile_run L w fh db content readErr hread hbegin] at hderive hinsert ⊢
      simp only [List.mem_cons, List.mem_singleton, reduceCtorEq, Call.insert.injEq,
        Call.derive.injEq, false_or, or_false, List.not_mem_nil] at hderive hinsert
      rw [hderive] at hold ⊢
      rw [hinsert]
      have hins : txInsert db.rows w.insertErr (builtRow L w fh.Filename) = none := by
        have : dbGet db.rows (builtRow L w fh.Filename).PassphraseHash = some old := hold
        simp [txInsert, this]
      have hrows : txCommit db.rows (txInsert db.rows w.insertErr (builtRow L w fh.Filename))
          w.commitErr = db.rows := by
        rw [hins]; simp [txCommit]
      refine ⟨rfl, ?_, hrows, ?_, ?_, ?_⟩
      · simp [storeErrors, hins]
      · simp only [hrows]; exact hold
      · intro m' hm'
        simpa using hm'
      · intro row' hrow'
        simpa using hrow'

set_option maxRecDepth 100000 in
/-- Witness for `collision_rejected`: `uploadCD` stored into `storeAB` under the phrase
already used. -/
theorem collision_rejected_witness :
    Call.derive phraseA ∈ (storeFile toyLib sameEntropyWorld uploadCD storeAB).calls ∧
    Call.insert ⟨lookupKey toyLib phraseA, [0, 67, 68],
        [5, 2, 3, 4, 5, 6, 7, 8, 9, 10, 11, 12], [7, 2, 3, 4, 5, 6, 7, 8, 9, 10, 11, 12]⟩
      ∈ (storeFile toyLib sameEntropyWorld uploadCD storeAB).calls ∧
    dbGet storeAB.rows (lookupKey toyLib phraseA)
      = some ⟨lookupKey toyLib phraseA, [248, 65, 66],
          [1, 2, 3, 4, 5, 6, 7, 8, 9, 10, 11, 12], [3, 2, 3, 4, 5, 6, 7, 8, 9, 10, 11, 12]⟩ ∧
    (500, Err.insert) ∈ (storeFile toyLib sameEntropyWorld uploadCD storeAB).errors ∧
    (storeFile toyLib sameEntropyWorld uploadCD storeAB).db.rows = storeAB.rows :=
  ⟨by decide, by decide, by decide,
    (collision_rejected toyLib sameEntropyWorld uploadCD storeAB
      ⟨lookupKey toyLib phraseA, [248, 65, 66],
        [1, 2, 3, 4, 5, 6, 7, 8, 9, 10, 11, 12], [3, 2, 3, 4, 5, 6, 7, 8, 9, 10, 11, 12]⟩
      ⟨lookupKey toyLib phraseA, [0, 67, 68],
        [5, 2, 3, 4, 5, 6, 7, 8, 9, 10, 11, 12], [7, 2, 3, 4, 5, 6, 7, 8, 9, 10, 11, 12]⟩
      phraseA (by decide) (by decide) (by decide)).2.1,
    (collision_rejected toyLib sameEntropyWorld uploadCD storeAB
      ⟨lookupKey toyLib phraseA, [248, 65, 66],
        [1, 2, 3, 4, 5, 6, 7, 8, 9, 10, 11, 12], [3, 2, 3, 4, 5, 6, 7, 8, 9, 10, 11, 12]⟩
      ⟨lookupKey toyLib phraseA, [0, 67, 68],
        [5, 2, 3, 4, 5, 6, 7, 8, 9, 10, 11, 12], [7, 2, 3, 4, 5, 6, 7, 8, 9, 10, 11, 12]⟩
      phraseA (by decide) (by decide) (by decide)).2.2.1⟩

/-- For any library: a `storeFile` run whose INSERT succeeds, whose `os.WriteFile` fails
before creating the file and whose commit succeeds leaves the new row visible under its
key while no file exists at the row's blob path. -/
theorem storeFile_write_failure_commits (L : Lib) (w : World) (fh : FileHeader) (db : Store)
    (content : Bytes) (readErr : Bool) (hread : fh.readAll = some (content, readErr))
    (hbegin : w.beginErr = false) (hins : w.insertErr = false)
    (hfresh : dbGet db.rows (lookupKey L (w.mnemonic L)) = none)
    (hwrite : w.write = WriteOutcome.openFails) (hcommit : w.commitErr = false)
    (hfile : db.files (blobPath (builtRow L w fh.Filename).Filename) = none) :
    (storeFile L w fh db).ret = some (w.mnemonic L) ∧
    (500, Err.writeFile) ∈ (storeFile L w fh db).errors ∧
    dbGet (storeFile L w fh db).db.rows (lookupKey L (w.mnemonic L))
      = some (builtRow L w fh.Filename) ∧
    (storeFile L w fh db).db.files (blobPath (builtRow L w fh.Filename).Filename) = none := by
  rw [lookupKey_eq] at hfresh ⊢
  have hfresh2 : dbGet db.rows (builtRow L w fh.Filename).PassphraseHash = none := hfresh
  have hinsert : txInsert db.rows w.insertErr (builtRow L w fh.Filename)
      = some (builtRow L w fh.Filename) := by
    simp [txInsert, hins, hfresh2]
  rw [storeFile_run L w fh db content readErr hread hbegin]
  refine ⟨rfl, by simp [storeErrors, hwrite], ?_, by simp [hwrite, osWriteFile, hfile]⟩
  have hrows : txCommit db.rows (txInsert db.rows w.insertErr (builtRow L w fh.Filename))
      w.commitErr = db.rows ++ [builtRow L w fh.Filename] := by
    simp [hinsert, txCommit, hcommit]
  simp only [hrows]
  unfold dbGet at hfresh ⊢
  rw [List.find?_append, hfresh]
  simp [builtRow]

/-- For any library: when entropy generation fails, a `storeFile` run in which nothing
else fails still derives keys from the resulting mnemonic, adds a row under its lookup
key and writes the blob. -/
theorem storeFile_entropy_failure_persists (L : Lib) (w : World) (fh : FileHeader)
    (db : Store) (content : Bytes) (readErr : Bool)
    (hread : fh.readAll = some (content, readErr)) (hentropy : w.entropyErr = true)
    (hbegin : w.beginErr = false) (hins : w.insertErr = false)
    (hfresh : dbGet db.rows (lookupKey L (w.mnemonic L)) = none)
    (hwrite : w.write = WriteOutcome.ok) (hcommit : w.commitErr = false) :
    (500, Err.entropy) ∈ (storeFile L w fh db).errors ∧
    Call.derive (w.mnemonic L) ∈ (storeFile L w fh db).calls ∧
    (storeFile L w fh db).db.rows = db.rows ++ [builtRow L w fh.Filename] ∧
    (storeFile L w fh db).db.files (blobPath (builtRow L w fh.Filename).Filename)
      = some (builtBlob L w content) := by
  rw [lookupKey_eq] at hfresh
  have hfresh2 : dbGet db.rows (builtRow L w fh.Filename).PassphraseHash = none := hfresh
  rw [storeFile_run L w fh db content readErr hread hbegin]
  refine ⟨by simp [storeErrors, hentropy], by simp, ?_, by simp [hwrite, osWriteFile]⟩
  simp [txInsert, hins, hfresh2, txCommit, hcommit]

set_option maxRecDepth 100000 in
/-- C2, failing run. `uploadAB` is stored in the empty store while `os.WriteFile` fails:
the error is recorded, the transaction is committed all the same, and afterwards the row
is found under the key of the returned phrase while no blob exists at its path;
`retrieveFile` with the returned phrase finds the record and reports only the missing
file. -/
theorem write_failure_leaves_orphan_row :
    writeFailWorld.write = WriteOutcome.openFails ∧
    (storeFile toyLib writeFailWorld uploadAB emptyStore).errors = [(500, Err.writeFile)] ∧
    (storeFile toyLib writeFailWorld uploadAB emptyStore).ret = some phraseA ∧
    dbGet (storeFile toyLib writeFailWorld uploadAB emptyStore).db.rows
        (lookupKey toyLib phraseA)
      = some ⟨lookupKey toyLib phraseA, [248, 65, 66],
          [1, 2, 3, 4, 5, 6, 7, 8, 9, 10, 11, 12], [3, 2, 3, 4, 5, 6, 7, 8, 9, 10, 11, 12]⟩ ∧
    (storeFile toyLib writeFailWorld uploadAB emptyStore).db.files (blobPath [248, 65, 66])
      = none ∧
    (retrieveFile toyLib phraseA
        (storeFile toyLib writeFailWorld uploadAB emptyStore).db).errors
      = [(500, Err.readFile)] ∧
    (retrieveFile toyLib phraseA (storeFile toyLib writeFailWorld uploadAB emptyStore).db).ret
      = some ([65, 66], []) := by
  refine ⟨rfl, by decide, by decide, by decide, by decide, by decide, by decide⟩

set_option maxRecDepth 100000 in
/-- C4, failing run. The phrase 01 has no row in `storeAB`: `retrieveFile` records the
lookup error, goes on to read the path "store/", records that error too, and calls
`decrypt` with the empty nonce of the zero-value record, where `Open` panics. -/
theorem unknown_phrase_reaches_decrypt :
    dbGet storeAB.rows (lookupKey toyLib [1]) = none ∧
    (retrieveFile toyLib [1] storeAB).errors = [(500, Err.noRows), (500, Err.readFile)] ∧
    (retrieveFile toyLib [1] storeAB).calls
      = [Call.derive [1], Call.get (lookupKey toyLib [1]),
          Call.readFile "store/",
          Call.decrypt [] (contentKey toyLib [1]) []] ∧
    decrypt toyLib [] (contentKey toyLib [1]) [] = none ∧
    (retrieveFile toyLib [1] storeAB).ret = none := by
  refine ⟨by decide, by decide, by decide, by decide, by decide⟩

set_option maxRecDepth 100000 in
/-- C6, failing run. First run: `bip39.NewEntropy` reports an error and hands back a
zeroed 32-byte buffer; the error is recorded, yet keys are derived from the mnemonic of
that buffer, a row is committed, the blob written and the phrase returned.  Second run:
`bip39.NewEntropy` returns nil and `bip39.NewMnemonic` rejects it; both errors are
recorded, keys are derived from the empty mnemonic, row and blob are stored, and the
empty phrase is returned and retrieves the upload. -/
theorem entropy_failure_still_stores :
    emptyStore.rows = [] ∧ emptyStore.files "store/f84142" = none ∧
    (zeroEntropyWorld.entropyErr = true ∧
      (storeFile toyLib zeroEntropyWorld uploadAB emptyStore).errors = [(500, Err.entropy)] ∧
      Call.derive (List.replicate 32 0)
        ∈ (storeFile toyLib zeroEntropyWorld uploadAB emptyStore).calls ∧
      (storeFile toyLib zeroEntropyWorld uploadAB emptyStore).db.rows
        = [⟨lookupKey toyLib (List.replicate 32 0), [248, 65, 66],
            [1, 2, 3, 4, 5, 6, 7, 8, 9, 10, 11, 12],
            [3, 2, 3, 4, 5, 6, 7, 8, 9, 10, 11, 12]⟩] ∧
      (storeFile toyLib zeroEntropyWorld uploadAB emptyStore).db.files "store/f84142"
        = some [122, 1, 2, 3] ∧
      (storeFile toyLib zeroEntropyWorld uploadAB emptyStore).ret
        = some (List.replicate 32 0)) ∧
    (noEntropyWorld.entropyErr = true ∧
      toyLib.newMnemonic noEntropyWorld.entropy = none ∧
      (storeFile toyLib noEntropyWorld uploadAB emptyStore).errors
        = [(500, Err.entropy), (500, Err.mnemonic)] ∧
      Call.derive [] ∈ (storeFile toyLib noEntropyWorld uploadAB emptyStore).calls ∧
      (storeFile toyLib noEntropyWorld uploadAB emptyStore).db.rows
        = [⟨lookupKey toyLib [], [248, 65, 66],
            [1, 2, 3, 4, 5, 6, 7, 8, 9, 10, 11, 12],
            [3, 2, 3, 4, 5, 6, 7, 8, 9, 10, 11, 12]⟩] ∧
      (storeFile toyLib noEntropyWorld uploadAB emptyStore).db.files "store/f84142"
        = some [122, 1, 2, 3] ∧
      (storeFile toyLib noEntropyWorld uploadAB emptyStore).ret = some [] ∧
      (retrieveFile toyLib [] (storeFile toyLib noEntropyWorld uploadAB emptyStore).db).ret
        = some ([65, 66], [1, 2, 3])) := by
  refine ⟨rfl, rfl, ⟨rfl, by decide, by decide, by decide, by decide, by decide⟩,
    ⟨rfl, by decide, by decide, by decide, by decide, by decide, by decide, by decide⟩⟩

end Bipper
